import Mathlib

/-!
Shallow embedding of the algorithmic core of
`drivers/staging/android/lowmemorykiller.c` (MStar/MiTV kernel 4.9 tree):
the tier-table lookup, the victim-selection scan, the kill dispatch and the
cooldown (debounce) logic of `lowmem_scan`.

Modelling conventions:
* The build is taken with `CONFIG_MP_Android_MSTAR_ADJUST_LOW_MEM_KILLER_POLICY`
  enabled (this is the MStar TV platform the tree ships for), so pressure is
  judged against the combined `total_free` quantity computed at
  lowmemorykiller.c:154 and the tier loop at lines 165-177 uses the
  `total_free < minfree` comparison with the `lowmem_adj[i] == 0` active-file
  add-back.  `CONFIG_MP_MMA_ENABLE` (an extra ION-pages addend) is taken
  disabled; it is one more opaque summand of the same combined quantity and no
  claim depends on it.
* C `int`/`short` page counts and oom scores are modelled as `Int`; the
  quantities involved (page counts, scores in -1000..1001) are far from the
  32-bit overflow boundary and no claim is about overflow behaviour.
* `jiffies` timestamps are modelled as `Nat`; `time_before_eq(a, b)` is
  modelled as `a ≤ b` (jiffies wrap-around is outside the model).
* The live process list is modelled as the list of per-task facts `lowmem_scan`
  reads: the `PF_KTHREAD` flag (line 211), whether `find_lock_task_mm`
  succeeds (line 214), the `task_lmk_waiting` flag (line 218), `oom_score_adj`
  (line 228) and `get_mm_rss` (line 233).
-/

namespace LMK

/-- Largest `oom_score_adj` value (`OOM_SCORE_ADJ_MAX` in `linux/oom.h`). -/
def OOM_SCORE_ADJ_MAX : Int := 1000

/-- The module-parameter state of the driver: the fixed-capacity-6 arrays
`lowmem_adj` and `lowmem_minfree` (lines 50-67, each represented by the list
of its entries) together with their element counts `lowmem_adj_size` and
`lowmem_minfree_size` (lines 57, 70-73). -/
structure Config where
  lowmem_adj : List Int
  lowmem_adj_size : Nat
  lowmem_minfree : List Int
  lowmem_minfree_size : Nat
deriving DecidableEq, Repr

/-- The memory statistics one invocation of `lowmem_scan` reads (lines
120-138): `other_free = NR_FREE_PAGES - totalreserve_pages`,
`other_file = NR_FILE_PAGES - NR_SHMEM - NR_UNEVICTABLE - swapcache`,
`active_file = NR_ACTIVE_FILE`, and the `free_cma` value produced by the
`gfp_mask` conditional at lines 137-138. -/
structure PressureReading where
  other_free : Int
  other_file : Int
  active_file : Int
  free_cma : Int
deriving DecidableEq, Repr

/-- One live task as seen by the scan loop of `lowmem_scan`:
`is_kthread` is `tsk->flags & PF_KTHREAD` (line 211), `has_mm` is whether
`find_lock_task_mm` returns a thread with an mm (line 214), `lmk_waiting` is
`task_lmk_waiting` (line 218), `oom_score_adj` is `p->signal->oom_score_adj`
(line 228) and `rss` is `get_mm_rss(p->mm)` (line 233). -/
structure Candidate where
  is_kthread : Bool
  has_mm : Bool
  lmk_waiting : Bool
  oom_score_adj : Int
  rss : Int
deriving DecidableEq, Repr

/-- Effective table length of a pass (lines 119, 161-164):
`array_size = ARRAY_SIZE(lowmem_adj)` (= 6), lowered to `lowmem_adj_size`
and then to `lowmem_minfree_size` whenever those are smaller. -/
def array_size (cfg : Config) : Nat :=
  let a : Nat := 6
  let a := if cfg.lowmem_adj_size < a then cfg.lowmem_adj_size else a
  if cfg.lowmem_minfree_size < a then cfg.lowmem_minfree_size else a

/-- The window of `(lowmem_adj[i], lowmem_minfree[i])` pairs the tier loop at
lines 165-177 iterates over: indices `0 ≤ i < array_size`. -/
def effTable (cfg : Config) : List (Int × Int) :=
  (cfg.lowmem_adj.zip cfg.lowmem_minfree).take (array_size cfg)

/-- The combined effectively-free quantity of line 154:
`total_free = other_free - free_cma + (other_file - active_file)`. -/
def total_free (r : PressureReading) : Int :=
  r.other_free - r.free_cma + (r.other_file - r.active_file)

/-- The tier loop of lines 165-177, one `(adj, minfree)` pair per iteration:
`if (lowmem_adj[i] == 0) total_free += active_file;` then
`if (total_free < minfree) { min_score_adj = lowmem_adj[i]; break; }`.
Falling off the end leaves `min_score_adj` at its initialisation
`OOM_SCORE_ADJ_MAX + 1` (line 115). -/
def tierWalk (activeFile : Int) : Int → List (Int × Int) → Int
  | _, [] => OOM_SCORE_ADJ_MAX + 1
  | totalFree, (a, m) :: rest =>
      let tf := if a = 0 then totalFree + activeFile else totalFree
      if tf < m then a else tierWalk activeFile tf rest

/-- The `min_score_adj` value a pass computes from the configuration and the
pressure reading (lines 115, 152-177). -/
def min_score_adj_of (cfg : Config) (r : PressureReading) : Int :=
  tierWalk r.active_file (total_free r) (effTable cfg)

/-- The per-candidate filters of the scan loop, lines 211-236: not a kernel
thread, has an mm, `oom_score_adj` not below the cutoff, positive rss.
A candidate passing all four is what the spec calls eligible. -/
def eligibleb (cutoff : Int) (c : Candidate) : Bool :=
  !c.is_kthread && c.has_mm &&
    !(decide (c.oom_score_adj < cutoff)) && !(decide (c.rss ≤ 0))

/-- The `for_each_process` loop of lines 207-249.  `i` is the position of the
head of `l` in the original candidate list; `sel` is the current
`(index, candidate)` of `selected`/`selected_tasksize`/`selected_oom_score_adj`.
Result `none` models the early `return 0` of lines 218-227 (a task is
`task_lmk_waiting` while `jiffies <= lowmem_deathpending_timeout`, i.e. `cd`);
`some sel` models the loop running to completion with final selection `sel`. -/
def scanLoop (cutoff : Int) (cd : Bool) :
    List Candidate → Nat → Option (Nat × Candidate) → Option (Option (Nat × Candidate))
  | [], _, sel => some sel
  | c :: rest, i, sel =>
      if c.is_kthread then scanLoop cutoff cd rest (i + 1) sel
      else if !c.has_mm then scanLoop cutoff cd rest (i + 1) sel
      else if c.lmk_waiting && cd then none
      else if c.oom_score_adj < cutoff then scanLoop cutoff cd rest (i + 1) sel
      else if c.rss ≤ 0 then scanLoop cutoff cd rest (i + 1) sel
      else
        match sel with
        | some s =>
            if c.oom_score_adj < s.2.oom_score_adj then scanLoop cutoff cd rest (i + 1) sel
            else if c.oom_score_adj = s.2.oom_score_adj ∧ c.rss ≤ s.2.rss then
              scanLoop cutoff cd rest (i + 1) sel
            else scanLoop cutoff cd rest (i + 1) (some (i, c))
        | none => scanLoop cutoff cd rest (i + 1) (some (i, c))

/-- Line 258: `if (selected->mm) task_set_lmk_waiting(selected)` — set the
lmk-waiting flag of the candidate at position `i`. -/
def markWaitingFrom : List Candidate → Nat → List Candidate
  | [], _ => []
  | c :: rest, 0 => (if c.has_mm then { c with lmk_waiting := true } else c) :: rest
  | c :: rest, n + 1 => c :: markWaitingFrom rest n

/-- The four terminal return sites of `lowmem_scan`: line 201 (no tier
triggered), line 226 (deferred by a pending exit), and line 293 reached with
or without a selection. -/
inductive Outcome
  | idle
  | deferred
  | noVictim
  | killed
deriving DecidableEq, Repr

/-- Everything one invocation of `lowmem_scan` produces: the returned `rem`,
the value of `lowmem_deathpending_timeout` after the pass, the candidate list
with any flag update applied, the dispatched victim (send_sig target of line
256) and which return site was taken. -/
structure ScanOutput where
  ret : Int
  timeout' : Nat
  cands' : List Candidate
  victim : Option (Nat × Candidate)
  outcome : Outcome
deriving DecidableEq, Repr

/-- The whole of `lowmem_scan` (lines 104-294): compute `min_score_adj`
(lines 115-177); return 0 if it stayed at the sentinel (lines 183-202);
otherwise run the candidate scan (lines 206-249) with the cooldown test
`time_before_eq(jiffies, lowmem_deathpending_timeout)` precomputed, and on a
selection send SIGKILL, mark the victim lmk-waiting, set
`lowmem_deathpending_timeout = jiffies + HZ` (line 282, `hz` is the
configuration-dependent `HZ` constant) and return the victim's task size
(lines 250-294). -/
def lowmem_scan (cfg : Config) (r : PressureReading) (cands : List Candidate)
    (jf tout hz : Nat) : ScanOutput :=
  let msa := min_score_adj_of cfg r
  if msa = OOM_SCORE_ADJ_MAX + 1 then
    { ret := 0, timeout' := tout, cands' := cands, victim := none, outcome := .idle }
  else
    match scanLoop msa (decide (jf ≤ tout)) cands 0 none with
    | none =>
        { ret := 0, timeout' := tout, cands' := cands, victim := none, outcome := .deferred }
    | some none =>
        { ret := 0, timeout' := tout, cands' := cands, victim := none, outcome := .noVictim }
    | some (some (i, c)) =>
        { ret := c.rss, timeout' := jf + hz, cands' := markWaitingFrom cands i,
          victim := some (i, c), outcome := .killed }

/-! Spec-side definitions used to compare the code against the claims. -/

/-- Tier lookup the way claim C3 words it: the priority of the first entry
whose threshold strictly exceeds one fixed effectively-free quantity, the
sentinel if none does.  This follows the spec text, not the source; it is the
comparison point for the C3 counterexample. -/
def lookupFirstExceeding : List (Int × Int) → Int → Int
  | [], _ => OOM_SCORE_ADJ_MAX + 1
  | (a, m) :: rest, free => if free < m then a else lookupFirstExceeding rest free

/-- Tier lookup as amended for C3: walk the entries in order keeping a count
`c` of the priority-0 entries seen so far (inclusive); an entry `(a, m)` is
selected if `m` strictly exceeds `base + activeFile * c`; the sentinel results
if no entry is selected. -/
def specWalkC (base af : Int) : Int → List (Int × Int) → Int
  | _, [] => OOM_SCORE_ADJ_MAX + 1
  | c, (a, m) :: rest =>
      if base + af * (if a = 0 then c + 1 else c) < m then a
      else specWalkC base af (if a = 0 then c + 1 else c) rest

/-- Selection order of the scan loop: `(k, c)` dominates `(j, d)` when `c`
wins over `d` under the loop's replacement rule — strictly higher
`oom_score_adj`, or equal `oom_score_adj` and strictly larger rss, or an exact
tie in both with `c` seen no later than `d`. -/
def Dominates (k : Nat) (c : Candidate) (j : Nat) (d : Candidate) : Prop :=
  d.oom_score_adj < c.oom_score_adj ∨
    (d.oom_score_adj = c.oom_score_adj ∧ d.rss < c.rss) ∨
      (d.oom_score_adj = c.oom_score_adj ∧ d.rss = c.rss ∧ k ≤ j)

/-- Soundness statement for a completed run of `scanLoop` over suffix `l`
whose head sits at position `i0`, starting from selection state `sel` and
finishing with selection state `res`: the result is the initial state or an
eligible candidate of `l` at its own position, it dominates the initial
state, and it dominates every eligible candidate of `l`. -/
def InvConcl (cutoff : Int) (l : List Candidate) (i0 : Nat)
    (sel res : Option (Nat × Candidate)) : Prop :=
  (res = sel ∨ ∃ j c, l.get? j = some c ∧ res = some (i0 + j, c) ∧ eligibleb cutoff c = true) ∧
  (∀ k s, sel = some (k, s) → ∃ kr cr, res = some (kr, cr) ∧ Dominates kr cr k s) ∧
  (∀ j d, l.get? j = some d → eligibleb cutoff d = true →
    ∃ kr cr, res = some (kr, cr) ∧ Dominates kr cr (i0 + j) d)

/-- Rewrite of a candidate's lmk-waiting flag, used to state that the flag is
irrelevant to selection once the cooldown has elapsed (claim C10). -/
def setW (f : Candidate → Bool) (c : Candidate) : Candidate :=
  { c with lmk_waiting := f c }

/-! Helper lemmas. -/

theorem dominates_refl (k : Nat) (c : Candidate) : Dominates k c k c :=
  Or.inr (Or.inr ⟨rfl, rfl, Nat.le_refl k⟩)

theorem dominates_trans {a : Nat} {x : Candidate} {b : Nat} {y : Candidate}
    {c : Nat} {z : Candidate} (h1 : Dominates a x b y) (h2 : Dominates b y c z) :
    Dominates a x c z := by
  unfold Dominates at h1 h2 ⊢
  omega

theorem tierWalk_eq_specWalkC (af base : Int) :
    ∀ (l : List (Int × Int)) (c : Int),
      tierWalk af (base + af * c) l = specWalkC base af c l := by
  intro l
  induction l with
  | nil => intro c; rfl
  | cons hd tl ih =>
    intro c
    obtain ⟨a, m⟩ := hd
    by_cases h : a = 0
    · have hc : base + af * c + af = base + af * (c + 1) := by ring
      simp only [tierWalk, specWalkC, if_pos h, hc]
      split
      · rfl
      · exact ih (c + 1)
    · simp only [tierWalk, specWalkC, if_neg h]
      split
      · rfl
      · exact ih c

theorem tierWalk_all_le (af : Int) (haf : 0 ≤ af) :
    ∀ (l : List (Int × Int)) (tf : Int), (∀ p ∈ l, p.2 ≤ tf) →
      tierWalk af tf l = OOM_SCORE_ADJ_MAX + 1 := by
  intro l
  induction l with
  | nil => intro tf _; rfl
  | cons hd tl ih =>
    intro tf hall
    obtain ⟨a, m⟩ := hd
    have hm : m ≤ tf := hall (a, m) (List.mem_cons_self _ _)
    have htf : tf ≤ if a = 0 then tf + af else tf := by
      split <;> omega
    simp only [tierWalk]
    rw [if_neg (by split at htf <;> omega)]
    exact ih _ fun p hp => le_trans (hall p (List.mem_cons_of_mem _ hp)) htf

theorem take_zip_int (n : Nat) :
    ∀ (l1 l2 : List Int), (l1.zip l2).take n = (l1.take n).zip (l2.take n) := by
  induction n with
  | zero => intro l1 l2; simp
  | succ k ih =>
    intro l1 l2
    cases l1 with
    | nil => simp
    | cons x xs =>
      cases l2 with
      | nil => simp
      | cons y ys => simp [List.zip_cons_cons, List.take_succ_cons, ih]

theorem array_size_congr (cfg1 cfg2 : Config)
    (hA : cfg1.lowmem_adj_size = cfg2.lowmem_adj_size)
    (hM : cfg1.lowmem_minfree_size = cfg2.lowmem_minfree_size) :
    array_size cfg1 = array_size cfg2 := by
  simp only [array_size, hA, hM]

/-! Claim theorems. -/

/-- Claim C3, counterexample.  The claim says the lookup selects the priority
of the first entry whose threshold strictly exceeds the (single) combined
effectively-free quantity.  With `lowmem_adj = [0]`, `lowmem_minfree = [10]`
and a reading whose combined quantity is 5 but whose active-file count is 100,
the first (and only) entry has threshold 10 > 5, so the claimed lookup yields
priority 0 — but the code adds the active-file count back at the priority-0
entry (line 168-169), compares 105 < 10, and yields the sentinel. -/
theorem c3_counterexample :
    total_free ⟨5, 100, 100, 0⟩ = 5 ∧
    lookupFirstExceeding (effTable ⟨[0], 1, [10], 1⟩) (total_free ⟨5, 100, 100, 0⟩) = 0 ∧
    min_score_adj_of ⟨[0], 1, [10], 1⟩ ⟨5, 100, 100, 0⟩ = OOM_SCORE_ADJ_MAX + 1 ∧
    min_score_adj_of ⟨[0], 1, [10], 1⟩ ⟨5, 100, 100, 0⟩ ≠
      lookupFirstExceeding (effTable ⟨[0], 1, [10], 1⟩) (total_free ⟨5, 100, 100, 0⟩) := by
  refine ⟨by decide, by decide, by decide, by decide⟩

/-- Claim C3 as amended: the tier lookup walks entries in ascending index
order and selects the priority of the first entry whose threshold strictly
exceeds the running effectively-free quantity, where the active-file count is
added to the running quantity at each entry whose priority is 0 (so the
quantity compared at an entry is the combined total plus active-file times the
number of priority-0 entries seen up to and including it); if no entry is
selected (in particular, with a nonnegative active-file count, whenever the
combined quantity is at least every threshold in the effective table, and
always when the effective table is empty), the lookup yields the sentinel
`OOM_SCORE_ADJ_MAX + 1` and the pass returns 0 having taken no action. -/
theorem c3_tier_lookup_first_match (cfg : Config) (r : PressureReading)
    (cands : List Candidate) (jf tout hz : Nat) :
    min_score_adj_of cfg r = specWalkC (total_free r) r.active_file 0 (effTable cfg) ∧
    (0 ≤ r.active_file → (∀ p ∈ effTable cfg, p.2 ≤ total_free r) →
      min_score_adj_of cfg r = OOM_SCORE_ADJ_MAX + 1) ∧
    (min_score_adj_of cfg r = OOM_SCORE_ADJ_MAX + 1 →
      (lowmem_scan cfg r cands jf tout hz).ret = 0 ∧
      (lowmem_scan cfg r cands jf tout hz).victim = none ∧
      (lowmem_scan cfg r cands jf tout hz).timeout' = tout ∧
      (lowmem_scan cfg r cands jf tout hz).cands' = cands ∧
      (lowmem_scan cfg r cands jf tout hz).outcome = Outcome.idle) := by
  refine ⟨?_, ?_, ?_⟩
  · have h := tierWalk_eq_specWalkC r.active_file (total_free r) (effTable cfg) 0
    simpa [min_score_adj_of] using h
  · intro haf hall
    exact tierWalk_all_le r.active_file haf (effTable cfg) (total_free r) hall
  · intro hs
    simp [lowmem_scan, if_pos hs]

/-- Witness for C3 (amended): concrete instantiation; the empty table yields
the sentinel and the pass leaves everything untouched. -/
theorem c3_tier_lookup_first_match_witness :
    min_score_adj_of ⟨[], 0, [], 0⟩ ⟨7, 3, 2, 1⟩ =
      specWalkC (total_free ⟨7, 3, 2, 1⟩) 2 0 (effTable ⟨[], 0, [], 0⟩) ∧
    (lowmem_scan ⟨[], 0, [], 0⟩ ⟨7, 3, 2, 1⟩ [] 4 9 100).ret = 0 ∧
    (lowmem_scan ⟨[], 0, [], 0⟩ ⟨7, 3, 2, 1⟩ [] 4 9 100).victim = none := by
  have h := c3_tier_lookup_first_match ⟨[], 0, [], 0⟩ ⟨7, 3, 2, 1⟩ [] 4 9 100
  exact ⟨h.1, (h.2.2 (by decide)).1, (h.2.2 (by decide)).2.1⟩

/-- Claim C4: the window of tier entries a lookup can consult is exactly the
first `min (min 6 lowmem_adj_size) lowmem_minfree_size` entries — the
`array_size` clamping of lines 119/161-164 equals that minimum, and two
configurations with the same sizes that agree on that window produce the same
cutoff for every reading, whatever their later entries are. -/
theorem c4_lookup_window (cfg1 cfg2 : Config)
    (hA : cfg1.lowmem_adj_size = cfg2.lowmem_adj_size)
    (hM : cfg1.lowmem_minfree_size = cfg2.lowmem_minfree_size)
    (hta : cfg1.lowmem_adj.take (array_size cfg1) = cfg2.lowmem_adj.take (array_size cfg2))
    (htm : cfg1.lowmem_minfree.take (array_size cfg1) =
      cfg2.lowmem_minfree.take (array_size cfg2))
    (r : PressureReading) :
    array_size cfg1 = min (min 6 cfg1.lowmem_adj_size) cfg1.lowmem_minfree_size ∧
    min_score_adj_of cfg1 r = min_score_adj_of cfg2 r := by
  constructor
  · simp only [array_size]
    rw [Nat.min_def, Nat.min_def]
    split_ifs <;> omega
  · have htab : effTable cfg1 = effTable cfg2 := by
      simp only [effTable, take_zip_int, hta, htm]
    simp only [min_score_adj_of, htab]

/-- Witness for C4: adj list of (claimed) length 6 with threshold list of
length 3 gives an effective window of 3; entries past index 2 differ between
the two configurations yet the cutoff agrees. -/
theorem c4_lookup_window_witness :
    array_size ⟨[0, 1, 6, 12, 0, 0], 6, [100, 200, 300, 7, 8, 9], 3⟩ =
      min (min 6 6) 3 ∧
    min_score_adj_of ⟨[0, 1, 6, 12, 0, 0], 6, [100, 200, 300, 7, 8, 9], 3⟩ ⟨250, 0, 0, 0⟩ =
      min_score_adj_of ⟨[0, 1, 6, 999, 999, 999], 6, [100, 200, 300, 999, 999, 999], 3⟩
        ⟨250, 0, 0, 0⟩ :=
  c4_lookup_window ⟨[0, 1, 6, 12, 0, 0], 6, [100, 200, 300, 7, 8, 9], 3⟩
    ⟨[0, 1, 6, 999, 999, 999], 6, [100, 200, 300, 999, 999, 999], 3⟩
    rfl rfl (by decide) (by decide) ⟨250, 0, 0, 0⟩

/-- Claim C5, counterexample.  Two readings with the same combined
effectively-free quantity (5) but different active-file counts give different
cutoffs, so the cutoff is not determined by comparing the single combined
quantity against the thresholds. -/
theorem c5_counterexample :
    total_free ⟨5, 0, 0, 0⟩ = total_free ⟨5, 100, 100, 0⟩ ∧
    min_score_adj_of ⟨[0], 1, [10], 1⟩ ⟨5, 0, 0, 0⟩ = 0 ∧
    min_score_adj_of ⟨[0], 1, [10], 1⟩ ⟨5, 100, 100, 0⟩ = OOM_SCORE_ADJ_MAX + 1 := by
  refine ⟨by decide, by decide, by decide⟩

/-- Claim C5 as amended: the evaluator combines the raw free quantity and the
raw reclaimable-cache quantity into a single effectively-free quantity before
the tier-table lookup, and the active cutoff is determined by that combined
quantity together with the active-file count (which the loop adds back at
priority-0 entries): two readings agreeing on both produce the same cutoff,
however their raw free/cache components differ, and no comparison consults the
free or cache quantity separately. -/
theorem c5_combined_quantity (cfg : Config) (r1 r2 : PressureReading)
    (hf : total_free r1 = total_free r2) (ha : r1.active_file = r2.active_file) :
    min_score_adj_of cfg r1 = min_score_adj_of cfg r2 := by
  simp only [min_score_adj_of, hf, ha]

/-- Witness for C5 (amended): the raw components differ
(free 5/cma 0 versus free 7/cma 2) but the combined quantity and active-file
count agree, so the cutoffs agree. -/
theorem c5_combined_quantity_witness :
    min_score_adj_of ⟨[0, 8], 2, [1024, 4096], 2⟩ ⟨5, 0, 0, 0⟩ =
      min_score_adj_of ⟨[0, 8], 2, [1024, 4096], 2⟩ ⟨7, 0, 0, 2⟩ :=
  c5_combined_quantity ⟨[0, 8], 2, [1024, 4096], 2⟩ ⟨5, 0, 0, 0⟩ ⟨7, 0, 0, 2⟩
    (by decide) (by decide)

/-- Claim C7: the value a pass returns equals the dispatched victim's resident
size when a termination is dispatched, and 0 on every pass that dispatches
none (idle, deferred, or no eligible victim). -/
theorem c7_return_value (cfg : Config) (r : PressureReading) (cands : List Candidate)
    (jf tout hz : Nat) :
    (lowmem_scan cfg r cands jf tout hz).ret =
      (match (lowmem_scan cfg r cands jf tout hz).victim with
       | some p => p.2.rss
       | none => 0) := by
  simp only [lowmem_scan]
  split
  · rfl
  · split <;> rfl

/-- Claim C9: a pass that dispatches no termination leaves the cooldown
deadline and every candidate's exit-requested flag unchanged; the deadline is
written only in the branch that also issues the kill. -/
theorem c9_no_kill_no_state_change (cfg : Config) (r : PressureReading)
    (cands : List Candidate) (jf tout hz : Nat)
    (h : (lowmem_scan cfg r cands jf tout hz).victim = none) :
    (lowmem_scan cfg r cands jf tout hz).timeout' = tout ∧
    (lowmem_scan cfg r cands jf tout hz).cands' = cands := by
  revert h
  simp only [lowmem_scan]
  split
  · intro _; exact ⟨rfl, rfl⟩
  · split
    · intro _; exact ⟨rfl, rfl⟩
    · intro _; exact ⟨rfl, rfl⟩
    · intro h; exact absurd h (by simp)

/-- Witness for C9: an empty tier table triggers no tier, so the pass
dispatches nothing and the deadline (9) and candidate list survive. -/
theorem c9_no_kill_no_state_change_witness :
    (lowmem_scan ⟨[], 0, [], 0⟩ ⟨7, 3, 2, 1⟩ [⟨false, true, false, 5, 10⟩] 4 9 100).timeout'
        = 9 ∧
    (lowmem_scan ⟨[], 0, [], 0⟩ ⟨7, 3, 2, 1⟩ [⟨false, true, false, 5, 10⟩] 4 9 100).cands'
        = [⟨false, true, false, 5, 10⟩] :=
  c9_no_kill_no_state_change ⟨[], 0, [], 0⟩ ⟨7, 3, 2, 1⟩ [⟨false, true, false, 5, 10⟩]
    4 9 100 (by decide)

theorem invConcl_skip {cutoff : Int} {c0 : Candidate} {rest : List Candidate}
    {i0 : Nat} {sel res : Option (Nat × Candidate)}
    (htail : InvConcl cutoff rest (i0 + 1) sel res)
    (hhead : eligibleb cutoff c0 = true →
      ∃ kr cr, res = some (kr, cr) ∧ Dominates kr cr i0 c0) :
    InvConcl cutoff (c0 :: rest) i0 sel res := by
  obtain ⟨h1, h2, h3⟩ := htail
  refine ⟨?_, h2, ?_⟩
  · rcases h1 with h | ⟨j, c, hj, hres, hel⟩
    · exact Or.inl h
    · refine Or.inr ⟨j + 1, c, by simpa using hj, ?_, hel⟩
      rw [hres]
      simp only [Option.some.injEq, Prod.mk.injEq]
      exact ⟨by omega, trivial⟩
  · intro j d hj hel
    cases j with
    | zero =>
      have hd : c0 = d := by simpa using hj
      obtain ⟨kr, cr, hres, hdom⟩ := hhead (hd ▸ hel)
      exact ⟨kr, cr, hres, by simpa [← hd] using hdom⟩
    | succ j' =>
      obtain ⟨kr, cr, hres, hdom⟩ := h3 j' d (by simpa using hj) hel
      refine ⟨kr, cr, hres, ?_⟩
      have he : i0 + 1 + j' = i0 + (j' + 1) := by omega
      rwa [he] at hdom

theorem invConcl_select {cutoff : Int} {c0 : Candidate} {rest : List Candidate}
    {i0 : Nat} {sel res : Option (Nat × Candidate)}
    (hc0 : eligibleb cutoff c0 = true)
    (htail : InvConcl cutoff rest (i0 + 1) (some (i0, c0)) res)
    (hold : ∀ k s, sel = some (k, s) → Dominates i0 c0 k s) :
    InvConcl cutoff (c0 :: rest) i0 sel res := by
  obtain ⟨h1, h2, h3⟩ := htail
  have hres0 : ∃ kr cr, res = some (kr, cr) ∧ Dominates kr cr i0 c0 := h2 i0 c0 rfl
  refine ⟨?_, ?_, ?_⟩
  · rcases h1 with h | ⟨j, c, hj, hres, hel⟩
    · exact Or.inr ⟨0, c0, by simp, by simpa using h, hc0⟩
    · refine Or.inr ⟨j + 1, c, by simpa using hj, ?_, hel⟩
      rw [hres]
      simp only [Option.some.injEq, Prod.mk.injEq]
      exact ⟨by omega, trivial⟩
  · intro k s hs
    obtain ⟨kr, cr, hres, hdom⟩ := hres0
    exact ⟨kr, cr, hres, dominates_trans hdom (hold k s hs)⟩
  · intro j d hj hel
    cases j with
    | zero =>
      have hd : c0 = d := by simpa using hj
      obtain ⟨kr, cr, hres, hdom⟩ := hres0
      exact ⟨kr, cr, hres, by simpa [← hd] using hdom⟩
    | succ j' =>
      obtain ⟨kr, cr, hres, hdom⟩ := h3 j' d (by simpa using hj) hel
      refine ⟨kr, cr, hres, ?_⟩
      have he : i0 + 1 + j' = i0 + (j' + 1) := by omega
      rwa [he] at hdom

theorem scanLoop_inv (cutoff : Int) (cd : Bool) :
    ∀ (l : List Candidate) (i0 : Nat) (sel res : Option (Nat × Candidate)),
      (∀ k s, sel = some (k, s) → k < i0 ∧ eligibleb cutoff s = true) →
      scanLoop cutoff cd l i0 sel = some res →
      InvConcl cutoff l i0 sel res := by
  intro l
  induction l with
  | nil =>
    intro i0 sel res _ hrun
    simp only [scanLoop] at hrun
    obtain rfl : sel = res := by injection hrun
    refine ⟨Or.inl rfl, ?_, ?_⟩
    · intro k s hs
      exact ⟨k, s, hs, dominates_refl k s⟩
    · intro j d hj _
      exact absurd hj (by simp)
  | cons c0 rest ih =>
    intro i0 sel res hsel hrun
    have hsel' : ∀ k s, sel = some (k, s) → k < i0 + 1 ∧ eligibleb cutoff s = true :=
      fun k s hs => ⟨Nat.lt_succ_of_lt (hsel k s hs).1, (hsel k s hs).2⟩
    simp only [scanLoop] at hrun
    by_cases hk : c0.is_kthread = true
    · rw [if_pos hk] at hrun
      refine invConcl_skip (ih (i0 + 1) sel res hsel' hrun) ?_
      intro hel
      exact absurd hel (by simp [eligibleb, hk])
    · rw [if_neg hk] at hrun
      by_cases hm : c0.has_mm = true
      · rw [if_neg (by simp [hm])] at hrun
        by_cases hw : (c0.lmk_waiting && cd) = true
        · rw [if_pos hw] at hrun
          exact absurd hrun (by simp)
        · rw [if_neg hw] at hrun
          by_cases hadj : c0.oom_score_adj < cutoff
          · rw [if_pos hadj] at hrun
            refine invConcl_skip (ih (i0 + 1) sel res hsel' hrun) ?_
            intro hel
            exact absurd hel (by simp [eligibleb, hadj])
          · rw [if_neg hadj] at hrun
            by_cases hrss : c0.rss ≤ 0
            · rw [if_pos hrss] at hrun
              refine invConcl_skip (ih (i0 + 1) sel res hsel' hrun) ?_
              intro hel
              exact absurd hel (by simp [eligibleb, hrss])
            · rw [if_neg hrss] at hrun
              have hc0 : eligibleb cutoff c0 = true := by
                have hkf : c0.is_kthread = false := by simpa using hk
                simp [eligibleb, hkf, hm, hadj, hrss]
              cases sel with
              | none =>
                dsimp only at hrun
                refine invConcl_select hc0 (ih (i0 + 1) (some (i0, c0)) res ?_ hrun) ?_
                · intro k' s' hs'
                  obtain ⟨rfl, rfl⟩ : i0 = k' ∧ c0 = s' := by
                    injection hs' with h'
                    exact ⟨congrArg Prod.fst h', congrArg Prod.snd h'⟩
                  exact ⟨Nat.lt_succ_self i0, hc0⟩
                · intro k' s' hs'
                  exact absurd hs' (by simp)
              | some p =>
                obtain ⟨k, s⟩ := p
                dsimp only at hrun
                have hks := hsel k s rfl
                by_cases hlt : c0.oom_score_adj < s.oom_score_adj
                · rw [if_pos hlt] at hrun
                  have htail := ih (i0 + 1) (some (k, s)) res hsel' hrun
                  refine invConcl_skip htail ?_
                  intro _
                  obtain ⟨kr, cr, hres, hdom⟩ := htail.2.1 k s rfl
                  exact ⟨kr, cr, hres, dominates_trans hdom (Or.inl hlt)⟩
                · rw [if_neg hlt] at hrun
                  by_cases heq : c0.oom_score_adj = s.oom_score_adj ∧ c0.rss ≤ s.rss
                  · rw [if_pos heq] at hrun
                    have htail := ih (i0 + 1) (some (k, s)) res hsel' hrun
                    refine invConcl_skip htail ?_
                    intro _
                    obtain ⟨kr, cr, hres, hdom⟩ := htail.2.1 k s rfl
                    refine ⟨kr, cr, hres, dominates_trans hdom ?_⟩
                    have hki : k < i0 := hks.1
                    unfold Dominates
                    omega
                  · rw [if_neg heq] at hrun
                    refine invConcl_select hc0 (ih (i0 + 1) (some (i0, c0)) res ?_ hrun) ?_
                    · intro k' s' hs'
                      obtain ⟨rfl, rfl⟩ : i0 = k' ∧ c0 = s' := by
                        injection hs' with h'
                        exact ⟨congrArg Prod.fst h', congrArg Prod.snd h'⟩
                      exact ⟨Nat.lt_succ_self i0, hc0⟩
                    · intro k' s' hs'
                      obtain ⟨rfl, rfl⟩ : k = k' ∧ s = s' := by
                        injection hs' with h'
                        exact ⟨congrArg Prod.fst h', congrArg Prod.snd h'⟩
                      unfold Dominates
                      omega
      · rw [if_pos (by simp [Bool.not_eq_true'] at hm ⊢; exact hm)] at hrun
        refine invConcl_skip (ih (i0 + 1) sel res hsel' hrun) ?_
        intro hel
        have hmf : c0.has_mm = false := by simpa using hm
        exact absurd hel (by simp [eligibleb, hmf])

/-- Claim C1: when the scan returns a victim, that victim is an eligible
candidate of the list, occurring at the returned position, and it dominates
every eligible candidate: strictly higher `oom_score_adj` wins, equal
`oom_score_adj` is broken by strictly larger rss, and an exact tie in both is
resolved in favour of the earlier-seen candidate (the victim's index is least
among exact ties). -/
theorem c1_victim_is_best (cutoff : Int) (cd : Bool) (cands : List Candidate)
    (i : Nat) (c : Candidate)
    (h : scanLoop cutoff cd cands 0 none = some (some (i, c))) :
    cands.get? i = some c ∧ eligibleb cutoff c = true ∧
    ∀ j d, cands.get? j = some d → eligibleb cutoff d = true → Dominates i c j d := by
  have hinv := scanLoop_inv cutoff cd cands 0 none (some (i, c))
    (fun k s hs => absurd hs (by simp)) h
  obtain ⟨h1, _, h3⟩ := hinv
  have hget : cands.get? i = some c ∧ eligibleb cutoff c = true := by
    rcases h1 with h' | ⟨j, c', hj, hres, hel⟩
    · exact absurd h' (by simp)
    · obtain ⟨hij, hcc⟩ : i = 0 + j ∧ c = c' := by
        injection hres with h''
        exact ⟨congrArg Prod.fst h'', congrArg Prod.snd h''⟩
      subst hcc
      rw [hij]
      exact ⟨by simpa using hj, hel⟩
  refine ⟨hget.1, hget.2, ?_⟩
  intro j d hj hel
  obtain ⟨kr, cr, hres, hdom⟩ := h3 j d hj hel
  obtain ⟨hik, hcc⟩ : i = kr ∧ c = cr := by
    injection hres with h''
    exact ⟨congrArg Prod.fst h'', congrArg Prod.snd h''⟩
  subst hik
  subst hcc
  simpa using hdom

/-- Witness for C1: spec Scenario D — two eligible candidates with equal
priority 8 and sizes 100 and 500 under cutoff 8; the size-500 one (index 1)
is returned and dominates the size-100 one. -/
theorem c1_victim_is_best_witness :
    ([⟨false, true, false, 8, 100⟩, ⟨false, true, false, 8, 500⟩] : List Candidate).get? 1 =
      some ⟨false, true, false, 8, 500⟩ ∧
    eligibleb 8 ⟨false, true, false, 8, 500⟩ = true ∧
    Dominates 1 ⟨false, true, false, 8, 500⟩ 0 ⟨false, true, false, 8, 100⟩ := by
  have h := c1_victim_is_best 8 false
    [⟨false, true, false, 8, 100⟩, ⟨false, true, false, 8, 500⟩] 1
    ⟨false, true, false, 8, 500⟩ (by decide)
  exact ⟨h.1, h.2.1, h.2.2 0 ⟨false, true, false, 8, 100⟩ (by decide) (by decide)⟩

/-- Claim C2: a victim returned by the scan always has strictly positive
resident size, priority at least the cutoff, is not a kernel thread, and has
an mm; candidates failing these filters are skipped at lines 211-236 and can
never be the final selection. -/
theorem c2_victim_passes_filters (cutoff : Int) (cd : Bool) (cands : List Candidate)
    (i : Nat) (c : Candidate)
    (h : scanLoop cutoff cd cands 0 none = some (some (i, c))) :
    0 < c.rss ∧ cutoff ≤ c.oom_score_adj ∧ c.is_kthread = false ∧ c.has_mm = true := by
  have hinv := scanLoop_inv cutoff cd cands 0 none (some (i, c))
    (fun k s hs => absurd hs (by simp)) h
  rcases hinv.1 with h' | ⟨j, c', hj, hres, hel⟩
  · exact absurd h' (by simp)
  · obtain hcc : c = c' := by
      injection hres with h''
      exact congrArg Prod.snd h''
    subst hcc
    simp only [eligibleb, Bool.and_eq_true, Bool.not_eq_true', decide_eq_false_iff_not,
      not_lt, not_le] at hel
    exact ⟨hel.2, hel.1.2, hel.1.1.1, hel.1.1.2⟩

/-- Witness for C2: a single candidate with priority 3 and rss 7 under
cutoff 2 is returned and satisfies all filters. -/
theorem c2_victim_passes_filters_witness :
    0 < (⟨false, true, false, 3, 7⟩ : Candidate).rss ∧
    (2 : Int) ≤ (⟨false, true, false, 3, 7⟩ : Candidate).oom_score_adj ∧
    (⟨false, true, false, 3, 7⟩ : Candidate).is_kthread = false ∧
    (⟨false, true, false, 3, 7⟩ : Candidate).has_mm = true :=
  c2_victim_passes_filters 2 true [⟨false, true, false, 3, 7⟩] 0
    ⟨false, true, false, 3, 7⟩ (by decide)

theorem scanLoop_defer (cutoff : Int) :
    ∀ (l : List Candidate) (i : Nat) (sel : Option (Nat × Candidate)),
      (∃ c ∈ l, c.is_kthread = false ∧ c.has_mm = true ∧ c.lmk_waiting = true) →
      scanLoop cutoff true l i sel = none := by
  intro l
  induction l with
  | nil =>
    intro i sel h
    exact absurd h (by simp)
  | cons c0 rest ih =>
    intro i sel h
    obtain ⟨c, hc, hkf, hmm, hlw⟩ := h
    simp only [scanLoop]
    rcases List.mem_cons.mp hc with rfl | hmem
    · rw [if_neg (by simp [hkf]), if_neg (by simp [hmm]), if_pos (by simp [hlw])]
    · have hrec : ∀ (sel' : Option (Nat × Candidate)),
          scanLoop cutoff true rest (i + 1) sel' = none :=
        fun sel' => ih (i + 1) sel' ⟨c, hmem, hkf, hmm, hlw⟩
      by_cases hk : c0.is_kthread = true
      · rw [if_pos hk]; exact hrec sel
      · rw [if_neg hk]
        by_cases hm : (!c0.has_mm) = true
        · rw [if_pos hm]; exact hrec sel
        · rw [if_neg hm]
          by_cases hw : (c0.lmk_waiting && true) = true
          · rw [if_pos hw]
          · rw [if_neg hw]
            by_cases hadj : c0.oom_score_adj < cutoff
            · rw [if_pos hadj]; exact hrec sel
            · rw [if_neg hadj]
              by_cases hrss : c0.rss ≤ 0
              · rw [if_pos hrss]; exact hrec sel
              · rw [if_neg hrss]
                cases sel with
                | none => exact hrec _
                | some p =>
                  obtain ⟨k, s⟩ := p
                  dsimp only
                  split
                  · exact hrec _
                  · split
                    · exact hrec _
                    · exact hrec _

theorem scanLoop_nodefer (cutoff : Int) :
    ∀ (l : List Candidate) (i : Nat) (sel : Option (Nat × Candidate)),
      scanLoop cutoff false l i sel ≠ none := by
  intro l
  induction l with
  | nil =>
    intro i sel h
    simp [scanLoop] at h
  | cons c0 rest ih =>
    intro i sel h
    simp only [scanLoop] at h
    by_cases hk : c0.is_kthread = true
    · rw [if_pos hk] at h; exact ih _ _ h
    · rw [if_neg hk] at h
      by_cases hm : (!c0.has_mm) = true
      · rw [if_pos hm] at h; exact ih _ _ h
      · rw [if_neg hm] at h
        rw [if_neg (by simp : ¬((c0.lmk_waiting && false) = true))] at h
        by_cases hadj : c0.oom_score_adj < cutoff
        · rw [if_pos hadj] at h; exact ih _ _ h
        · rw [if_neg hadj] at h
          by_cases hrss : c0.rss ≤ 0
          · rw [if_pos hrss] at h; exact ih _ _ h
          · rw [if_neg hrss] at h
            cases sel with
            | none => exact ih _ _ h
            | some p =>
              obtain ⟨k, s⟩ := p
              dsimp only at h
              split at h
              · exact ih _ _ h
              · split at h
                · exact ih _ _ h
                · exact ih _ _ h

/-- Claim C6: a dispatching pass at time `t1` sets the cooldown deadline to
`t1 + hz`, and every pass invoked at a time `t2` not past that deadline that
observes a live, non-kernel candidate still marked exit-requested dispatches
no termination and returns 0 — whatever its configuration, reading and
candidate list are. -/
theorem c6_cooldown_defers (cfg1 : Config) (r1 : PressureReading)
    (cands1 : List Candidate) (t1 tout0 hz : Nat) (v : Nat × Candidate)
    (h1 : (lowmem_scan cfg1 r1 cands1 t1 tout0 hz).victim = some v) :
    (lowmem_scan cfg1 r1 cands1 t1 tout0 hz).timeout' = t1 + hz ∧
    ∀ (cfg2 : Config) (r2 : PressureReading) (cands2 : List Candidate) (t2 : Nat),
      t2 ≤ t1 + hz →
      (∃ c ∈ cands2, c.is_kthread = false ∧ c.has_mm = true ∧ c.lmk_waiting = true) →
      (lowmem_scan cfg2 r2 cands2 t2
          ((lowmem_scan cfg1 r1 cands1 t1 tout0 hz).timeout') hz).victim = none ∧
      (lowmem_scan cfg2 r2 cands2 t2
          ((lowmem_scan cfg1 r1 cands1 t1 tout0 hz).timeout') hz).ret = 0 := by
  have htm : (lowmem_scan cfg1 r1 cands1 t1 tout0 hz).timeout' = t1 + hz := by
    revert h1
    simp only [lowmem_scan]
    split
    · intro h1; exact absurd h1 (by simp)
    · split
      · intro h1; exact absurd h1 (by simp)
      · intro h1; exact absurd h1 (by simp)
      · intro _; rfl
  refine ⟨htm, ?_⟩
  intro cfg2 r2 cands2 t2 ht2 hex
  rw [htm]
  by_cases hs : min_score_adj_of cfg2 r2 = OOM_SCORE_ADJ_MAX + 1
  · constructor <;> simp [lowmem_scan, hs]
  · have hcd : decide (t2 ≤ t1 + hz) = true := by simpa using ht2
    have hd := scanLoop_defer (min_score_adj_of cfg2 r2) cands2 0 none hex
    constructor <;> simp [lowmem_scan, hs, hcd, hd]

/-- Witness for C6: a pass at time 10 (grace period 5) kills the only
candidate and sets the deadline to 15; a pass at time 12 that sees a
still-flagged candidate dispatches nothing. -/
theorem c6_cooldown_defers_witness :
    (lowmem_scan ⟨[0], 1, [10], 1⟩ ⟨5, 0, 0, 0⟩ [⟨false, true, false, 0, 50⟩]
        10 0 5).timeout' = 15 ∧
    (lowmem_scan ⟨[0], 1, [10], 1⟩ ⟨5, 0, 0, 0⟩ [⟨false, true, true, 0, 50⟩] 12
        ((lowmem_scan ⟨[0], 1, [10], 1⟩ ⟨5, 0, 0, 0⟩ [⟨false, true, false, 0, 50⟩]
          10 0 5).timeout') 5).victim = none := by
  have h := c6_cooldown_defers ⟨[0], 1, [10], 1⟩ ⟨5, 0, 0, 0⟩
    [⟨false, true, false, 0, 50⟩] 10 0 5 (0, ⟨false, true, false, 0, 50⟩) (by decide)
  refine ⟨h.1, ?_⟩
  exact (h.2 ⟨[0], 1, [10], 1⟩ ⟨5, 0, 0, 0⟩ [⟨false, true, true, 0, 50⟩] 12 (by decide)
    ⟨⟨false, true, true, 0, 50⟩, by decide, rfl, rfl, rfl⟩).1

/-- Claim C8: raising the cutoff shrinks eligibility — for cutoffs
`c1 < c2`, every candidate eligible under the stricter `c2` is eligible under
`c1`, so the filtered candidate set under `c2` is a subset of that under
`c1`. -/
theorem c8_eligibility_monotone (c1 c2 : Int) (h : c1 < c2) (cands : List Candidate) :
    cands.filter (eligibleb c2) ⊆ cands.filter (eligibleb c1) := by
  intro a ha
  rw [List.mem_filter] at ha ⊢
  refine ⟨ha.1, ?_⟩
  have h2 := ha.2
  simp only [eligibleb, Bool.and_eq_true, Bool.not_eq_true', decide_eq_false_iff_not,
    not_lt, not_le] at h2 ⊢
  exact ⟨⟨⟨h2.1.1.1, h2.1.1.2⟩, le_trans (le_of_lt h) h2.1.2⟩, h2.2⟩

/-- Witness for C8: a candidate eligible under cutoff 3 is still in the
filter under cutoff 1. -/
theorem c8_eligibility_monotone_witness :
    (⟨false, true, false, 5, 10⟩ : Candidate) ∈
      ([⟨false, true, false, 5, 10⟩] : List Candidate).filter (eligibleb 1) :=
  c8_eligibility_monotone 1 3 (by decide) [⟨false, true, false, 5, 10⟩] (by decide)

theorem setW_is_kthread (f : Candidate → Bool) (c : Candidate) :
    (setW f c).is_kthread = c.is_kthread := rfl

theorem setW_has_mm (f : Candidate → Bool) (c : Candidate) :
    (setW f c).has_mm = c.has_mm := rfl

theorem setW_oom_score_adj (f : Candidate → Bool) (c : Candidate) :
    (setW f c).oom_score_adj = c.oom_score_adj := rfl

theorem setW_rss (f : Candidate → Bool) (c : Candidate) :
    (setW f c).rss = c.rss := rfl

theorem scanLoop_flags (cutoff : Int) (f : Candidate → Bool) :
    ∀ (l : List Candidate) (i : Nat) (sel : Option (Nat × Candidate)),
      scanLoop cutoff false (l.map (setW f)) i
          (Option.map (fun p => (p.1, setW f p.2)) sel) =
        Option.map (Option.map (fun p => (p.1, setW f p.2)))
          (scanLoop cutoff false l i sel) := by
  intro l
  induction l with
  | nil =>
    intro i sel
    simp [scanLoop]
  | cons c0 rest ih =>
    intro i sel
    simp only [List.map_cons, scanLoop, setW_is_kthread, setW_has_mm, setW_oom_score_adj,
      setW_rss, Bool.and_false]
    by_cases hk : c0.is_kthread = true
    · rw [if_pos hk, if_pos hk]
      exact ih (i + 1) sel
    · rw [if_neg hk, if_neg hk]
      by_cases hm : (!c0.has_mm) = true
      · rw [if_pos hm, if_pos hm]
        exact ih (i + 1) sel
      · rw [if_neg hm, if_neg hm, if_neg (by simp : ¬((false : Bool) = true)),
          if_neg (by simp : ¬((false : Bool) = true))]
        by_cases hadj : c0.oom_score_adj < cutoff
        · rw [if_pos hadj, if_pos hadj]
          exact ih (i + 1) sel
        · rw [if_neg hadj, if_neg hadj]
          by_cases hrss : c0.rss ≤ 0
          · rw [if_pos hrss, if_pos hrss]
            exact ih (i + 1) sel
          · rw [if_neg hrss, if_neg hrss]
            cases sel with
            | none =>
              simp only [Option.map_none']
              exact ih (i + 1) (some (i, c0))
            | some p =>
              obtain ⟨k, s⟩ := p
              simp only [Option.map_some']
              dsimp only
              simp only [setW_oom_score_adj, setW_rss]
              by_cases hlt : c0.oom_score_adj < s.oom_score_adj
              · rw [if_pos hlt, if_pos hlt]
                exact ih (i + 1) (some (k, s))
              · rw [if_neg hlt, if_neg hlt]
                by_cases heq : c0.oom_score_adj = s.oom_score_adj ∧ c0.rss ≤ s.rss
                · rw [if_pos heq, if_pos heq]
                  exact ih (i + 1) (some (k, s))
                · rw [if_neg heq, if_neg heq]
                  exact ih (i + 1) (some (i, c0))

/-- Claim C10: once the cooldown deadline has passed (`tout < jf`), the
exit-requested flag has no effect on a pass: the pass never takes the
deferred exit, and rewriting every candidate's flag arbitrarily changes
neither the return value, the new deadline, the outcome, nor the index of the
dispatched victim — in particular a still-live exit-requested candidate is
selected and dispatched a termination exactly as an unflagged one would
be. -/
theorem c10_flag_inert_after_deadline (cfg : Config) (r : PressureReading)
    (cands : List Candidate) (f : Candidate → Bool) (jf tout hz : Nat)
    (h : tout < jf) :
    (lowmem_scan cfg r cands jf tout hz).outcome ≠ Outcome.deferred ∧
    (lowmem_scan cfg r (cands.map (setW f)) jf tout hz).ret =
      (lowmem_scan cfg r cands jf tout hz).ret ∧
    (lowmem_scan cfg r (cands.map (setW f)) jf tout hz).timeout' =
      (lowmem_scan cfg r cands jf tout hz).timeout' ∧
    (lowmem_scan cfg r (cands.map (setW f)) jf tout hz).outcome =
      (lowmem_scan cfg r cands jf tout hz).outcome ∧
    (lowmem_scan cfg r (cands.map (setW f)) jf tout hz).victim.map Prod.fst =
      (lowmem_scan cfg r cands jf tout hz).victim.map Prod.fst := by
  have hcd : decide (jf ≤ tout) = false := by
    simp only [decide_eq_false_iff_not, not_le]
    omega
  by_cases hs : min_score_adj_of cfg r = OOM_SCORE_ADJ_MAX + 1
  · refine ⟨?_, ?_, ?_, ?_, ?_⟩ <;> simp [lowmem_scan, hs]
  · have hflag := scanLoop_flags (min_score_adj_of cfg r) f cands 0 none
    have hnd := scanLoop_nodefer (min_score_adj_of cfg r) cands 0 none
    cases hres : scanLoop (min_score_adj_of cfg r) false cands 0 none with
    | none => exact absurd hres hnd
    | some osel =>
      rw [hres] at hflag
      cases osel with
      | none =>
        simp only [Option.map_none', Option.map_some'] at hflag
        refine ⟨?_, ?_, ?_, ?_, ?_⟩ <;> simp [lowmem_scan, hs, hcd, hres, hflag]
      | some p =>
        obtain ⟨i, c⟩ := p
        simp only [Option.map_none', Option.map_some'] at hflag
        refine ⟨?_, ?_, ?_, ?_, ?_⟩ <;>
          simp [lowmem_scan, hs, hcd, hres, hflag, setW_rss]

/-- Witness for C10: deadline 0 has passed at time 10; the only candidate is
still flagged exit-requested, the pass is not deferred, its return value is
unchanged by flag rewriting, and (by direct evaluation) the flagged candidate
is dispatched a termination again. -/
theorem c10_flag_inert_after_deadline_witness :
    (lowmem_scan ⟨[0], 1, [10], 1⟩ ⟨5, 0, 0, 0⟩ [⟨false, true, true, 0, 50⟩]
        10 0 5).outcome ≠ Outcome.deferred ∧
    (lowmem_scan ⟨[0], 1, [10], 1⟩ ⟨5, 0, 0, 0⟩
        (([⟨false, true, true, 0, 50⟩] : List Candidate).map (setW fun _ => true))
        10 0 5).ret =
      (lowmem_scan ⟨[0], 1, [10], 1⟩ ⟨5, 0, 0, 0⟩ [⟨false, true, true, 0, 50⟩]
        10 0 5).ret ∧
    (lowmem_scan ⟨[0], 1, [10], 1⟩ ⟨5, 0, 0, 0⟩ [⟨false, true, true, 0, 50⟩]
        10 0 5).outcome = Outcome.killed := by
  have h := c10_flag_inert_after_deadline ⟨[0], 1, [10], 1⟩ ⟨5, 0, 0, 0⟩
    [⟨false, true, true, 0, 50⟩] (fun _ => true) 10 0 5 (by decide)
  exact ⟨h.1, h.2.1, by decide⟩

end LMK
